import Mathlib

/-! The `collectors` package of gpfs_exporter.

A shallow embedding of `collectors/collector.go` and statements about it.

Conventions of the embedding

* A Go `string` is an immutable sequence of bytes.  It is represented by the
  list of the numeric values of its bytes (`GoString`); every string the
  program can build has all its values below 256.
* A Go run-time panic (index out of range, nil dereference) aborts the call.
  A function that can panic returns `Except GoPanic _`, with `.error p` the
  panic and `.ok v` the returned value.
* A Go `error` result is an `Option GoError`, `none` being `nil`.
* A Go map is a list of key/value pairs whose keys are pairwise distinct; a
  `range` over the map visits the pairs in the order of the list, so that
  quantifying over the lists quantifies over the iteration orders.
-/

namespace collectors

/-! ## Strings -/

/-- A Go string: the values of its bytes. -/
abbrev GoString := List Nat

/-- The Go string written by a literal: the UTF-8 encoding of the text. -/
def str (s : String) : GoString := s.toUTF8.data.toList.map UInt8.toNat

/-- A run-time panic of the Go program. -/
inductive GoPanic where
  /-- An index expression `items[index]` on a slice of `length` elements. -/
  | indexOutOfRange (index length : Nat)
  /-- A dereference of a nil pointer, or a call of a nil function value. -/
  | nilDereference
  deriving DecidableEq, Repr

/-- A non-nil Go `error` value. -/
inductive GoError where
  /-- The `url.EscapeError` of `net/url`, carrying the offending text. -/
  | EscapeError (s : GoString)
  /-- The failure of a command run (`cmd.Run`): the process could not be
  started or exited with a non-zero status. -/
  | ExecutionError (msg : GoString)
  /-- The failure of a parser whose required pattern is absent from the text. -/
  | ParseError
  deriving DecidableEq, Repr

deriving instance DecidableEq for Except

/-- The byte of a newline. -/
def newline : Nat := 10

/-- The byte of `:`. -/
def colon : Nat := 58

/-- The byte of `%`. -/
def percent : Nat := 37

/-- The byte of `+`. -/
def plus : Nat := 43

/-- The byte of a blank. -/
def space : Nat := 32

/-- The function `strings.Split(s, sep)` of the Go library for a separator of
one byte, the only use `collector.go` makes of it (`"\n"` and `":"`): the
pieces of `s` between the occurrences of `sep`, one more piece than there are
occurrences, so that the empty string gives one empty piece. -/
def Split (sep : Nat) : GoString → List GoString
  | [] => [[]]
  | c :: cs =>
    if c = sep then [] :: Split sep cs
    else
      match Split sep cs with
      | [] => [[c]]
      | piece :: pieces => (c :: piece) :: pieces

/-- The function `strings.Join(pieces, sep)` of the Go library for a separator
of one byte; used to write a text as the sequence of its lines. -/
def Join (sep : Nat) : List GoString → GoString
  | [] => []
  | [piece] => piece
  | piece :: pieces => piece ++ sep :: Join sep pieces

/-! ## Percent decoding (`net/url`) -/

/-- The function `ishex` of `net/url`. -/
def ishex (c : Nat) : Bool :=
  (48 ≤ c && c ≤ 57) || (97 ≤ c && c ≤ 102) || (65 ≤ c && c ≤ 70)

/-- The function `unhex` of `net/url`. -/
def unhex (c : Nat) : Nat :=
  if 48 ≤ c && c ≤ 57 then c - 48
  else if 97 ≤ c && c ≤ 102 then c - 97 + 10
  else if 65 ≤ c && c ≤ 70 then c - 65 + 10
  else 0

/-- The function `url.QueryUnescape` of the Go library, that is `unescape` in
mode `encodeQueryComponent`: `%XY` with two hexadecimal digits becomes the byte
`unhex(X)<<4 | unhex(Y)`, `+` becomes a blank, every other byte is copied.  A
`%` that is not followed by two hexadecimal digits makes the whole call fail
with `EscapeError`, whose text is the `%` and the at most two bytes after it.
The library validates the whole string before it writes any output; as the
first invalid `%` aborts the call, decoding and validating in one pass gives
the same result. -/
def QueryUnescape : GoString → Except GoError GoString
  | [] => .ok []
  | c :: rest =>
    if c = percent then
      match rest with
      | a :: b :: rest' =>
        if ishex a && ishex b then
          match QueryUnescape rest' with
          | .ok t => .ok ((((unhex a <<< 4) % 256) ||| unhex b) :: t)
          | .error e => .error e
        else .error (.EscapeError [c, a, b])
      | _ => .error (.EscapeError (c :: rest))
    else
      match QueryUnescape rest with
      | .ok t => .ok ((if c = plus then space else c) :: t)
      | .error e => .error e

/-- Some `%` of `s` is not followed by two hexadecimal digits. -/
def hasBadEscape : GoString → Bool
  | [] => false
  | c :: rest =>
    (c = percent &&
      !(match rest with
        | a :: b :: _ => ishex a && ishex b
        | _ => false)) || hasBadEscape rest

/-! ## The filesystem listing -/

/-- The record `GPFSFilesystem`. -/
structure GPFSFilesystem where
  Name : GoString
  Mountpoint : GoString
  deriving DecidableEq, Repr

/-- The index expression `items[i]`: it panics when `i` is not below the length. -/
def index (items : List GoString) (i : Nat) : Except GoPanic GoString :=
  match items[i]? with
  | some item => .ok item
  | none => .error (.indexOutOfRange i items.length)

/-- The loop `for _, line := range lines` of `parse_mmlsfs`, started with the
records appended so far in `filesystems`. -/
def parse_mmlsfs_loop : List GoString → List GPFSFilesystem →
    Except GoPanic (List GPFSFilesystem)
  | [], filesystems => .ok filesystems
  | line :: lines, filesystems =>
    let items := Split colon line
    if items.length < 7 then parse_mmlsfs_loop lines filesystems
    else
      match index items 2 with
      | .error p => .error p
      | .ok item2 =>
        if item2 = str "HEADER" then parse_mmlsfs_loop lines filesystems
        else
          match index items 6 with
          | .error p => .error p
          | .ok name =>
            match index items 8 with
            | .error p => .error p
            | .ok item8 =>
              match QueryUnescape item8 with
              | .error _ => parse_mmlsfs_loop lines filesystems
              | .ok mountpoint =>
                parse_mmlsfs_loop lines
                  (filesystems ++ [{ Name := name, Mountpoint := mountpoint }])

/-- The function `parse_mmlsfs`: the records and the error it returns, or the
panic that aborts it. -/
def parse_mmlsfs (out : GoString) :
    Except GoPanic (List GPFSFilesystem × Option GoError) :=
  match parse_mmlsfs_loop (Split newline out) [] with
  | .error p => .error p
  | .ok filesystems => .ok (filesystems, none)

/-! ## Go maps -/

/-- A Go map with string keys: its key/value pairs, the keys pairwise
distinct, in the order in which `range` visits them. -/
structure GoMap (V : Type) where
  entries : List (GoString × V)

/-- The empty map, `make(map[string]V)`. -/
def GoMap.empty {V : Type} : GoMap V := ⟨[]⟩

/-- The lookup of `k` in a list of pairs. -/
def lookupEntry {V : Type} (k : GoString) : List (GoString × V) → Option V
  | [] => none
  | (k', v) :: rest => if k' = k then some v else lookupEntry k rest

/-- The assignment of `v` to `k` in a list of pairs: the value of an existing
key is replaced, a new key is added. -/
def assignEntry {V : Type} (k : GoString) (v : V) : List (GoString × V) → List (GoString × V)
  | [] => [(k, v)]
  | (k', v') :: rest => if k' = k then (k, v) :: rest else (k', v') :: assignEntry k v rest

/-- The map read `m[k]` with its presence bit: `none` when `k` is not a key. -/
def GoMap.get? {V : Type} (m : GoMap V) (k : GoString) : Option V :=
  lookupEntry k m.entries

/-- The map write `m[k] = v`. -/
def GoMap.set {V : Type} (m : GoMap V) (k : GoString) (v : V) : GoMap V :=
  ⟨assignEntry k v m.entries⟩

/-- The keys of a map. -/
def GoMap.keys {V : Type} (m : GoMap V) : List GoString := m.entries.map Prod.fst

/-! ## The registry of collectors -/

/-- A flag declared by `kingpin.Flag(name, help).Default(defaultValue).Bool()`:
the name and help text, the default value, and the `bool` variable that
`Bool()` allocates and returns a pointer to.  kingpin writes the variable when
it parses the command line. -/
structure FlagClause where
  name : GoString
  help : GoString
  defaultValues : List GoString
  value : Bool
  deriving DecidableEq, Repr

/-- The package state that registration writes.  `flags` are the flags
declared with kingpin, in the order of their declaration; a `*bool` the
package holds is the position of its flag in `flags`.  `collectorState` and
`factories` are the two maps of `collector.go`; a factory `func() Collector` is
a function from `Unit` to the type of collectors. -/
structure Registry (Collector : Type) where
  flags : List FlagClause
  collectorState : GoMap Nat
  factories : GoMap (Unit → Collector)

/-- The state before any registration. -/
def Registry.empty {Collector : Type} : Registry Collector :=
  { flags := [], collectorState := GoMap.empty, factories := GoMap.empty }

/-- The function `registerCollector`.  `fmt.Sprintf` with the verb `%s` on a
string inserts the string, with `%v` on a bool it inserts `true` or `false`. -/
def registerCollector {Collector : Type} (r : Registry Collector) (collector : GoString)
    (isDefaultEnabled : Bool) (factory : Unit → Collector) : Registry Collector :=
  let helpDefaultState := if isDefaultEnabled then str "enabled" else str "disabled"
  let flagName := str "collector." ++ collector
  let flagHelp :=
    str "Enable the " ++ collector ++ str " collector (default: " ++ helpDefaultState ++ str ")."
  let defaultValue := if isDefaultEnabled then str "true" else str "false"
  let flag := r.flags.length
  { flags := r.flags ++
      [{ name := flagName, help := flagHelp, defaultValues := [defaultValue], value := false }],
    collectorState := r.collectorState.set collector flag,
    factories := r.factories.set collector factory }

/-- The record `GPFSCollector`; its embedded `sync.Mutex` has no state that a
sequential run observes. -/
structure GPFSCollector (Collector : Type) where
  Collectors : GoMap Collector

/-- The dereference `*enabled` of a flag pointer. -/
def deref (flags : List FlagClause) (p : Nat) : Except GoPanic Bool :=
  match flags[p]? with
  | some flag => .ok flag.value
  | none => .error .nilDereference

/-- The loop `for key, enabled := range collectorState` of `NewGPFSCollector`,
started with the map `collectors` built so far.  The call `factories[key]()`
panics when `key` has no factory, the map read giving a nil function. -/
def NewGPFSCollector_loop {Collector : Type} (r : Registry Collector) :
    List (GoString × Nat) → GoMap Collector → Except GoPanic (GoMap Collector)
  | [], collectors => .ok collectors
  | (key, enabled) :: rest, collectors =>
    match deref r.flags enabled with
    | .error p => .error p
    | .ok true =>
      match r.factories.get? key with
      | none => .error .nilDereference
      | some factory => NewGPFSCollector_loop r rest (collectors.set key (factory ()))
    | .ok false => NewGPFSCollector_loop r rest collectors

/-- The function `NewGPFSCollector`. -/
def NewGPFSCollector {Collector : Type} (r : Registry Collector) :
    Except GoPanic (GPFSCollector Collector) :=
  match NewGPFSCollector_loop r r.collectorState.entries GoMap.empty with
  | .error p => .error p
  | .ok collectors => .ok { Collectors := collectors }

/-- A name is registered with its enabled flag true: `collectorState` holds a
pointer for it and the pointed flag is true. -/
def Registry.enabled {Collector : Type} (r : Registry Collector) (name : GoString) : Bool :=
  match r.collectorState.get? name with
  | none => false
  | some p =>
    match r.flags[p]? with
    | some flag => flag.value
    | none => false

/-- A registry state: the keys of `collectorState` are pairwise distinct (it is
a map), every pointer in it is the position of a declared flag, and every name
in it has a factory. -/
def Registry.WF {Collector : Type} (r : Registry Collector) : Prop :=
  r.collectorState.keys.Nodup ∧
  ∀ e ∈ r.collectorState.entries,
    e.2 < r.flags.length ∧ (r.factories.get? e.1).isSome = true

/-- The state after a sequence of calls of `registerCollector`, each given by
its three arguments, from the state `r`. -/
def registerFrom {Collector : Type} (r : Registry Collector) :
    List (GoString × Bool × (Unit → Collector)) → Registry Collector
  | [] => r
  | call :: calls => registerFrom (registerCollector r call.1 call.2.1 call.2.2) calls

/-- The state after a sequence of calls of `registerCollector` from the state
before any registration. -/
def registerAll {Collector : Type} (calls : List (GoString × Bool × (Unit → Collector))) :
    Registry Collector :=
  registerFrom Registry.empty calls

/-- The writes to the flag variables from position `i` on: the variable of the
flag at position `j` receives `values j`. -/
def writeFlags (values : Nat → Bool) : Nat → List FlagClause → List FlagClause
  | _, [] => []
  | i, flag :: flags => { flag with value := values i } :: writeFlags values (i + 1) flags

/-- The state after kingpin has parsed the command line and written the flag
variables through their pointers; the two maps are not touched. -/
def setFlags {Collector : Type} (values : Nat → Bool) (r : Registry Collector) :
    Registry Collector :=
  { r with flags := writeFlags values 0 r.flags }

/-! ## Helpers of the package -/

/-- The function `SliceContains`. -/
def SliceContains : List GoString → GoString → Bool
  | [], _ => false
  | s :: slice, str => if str = s then true else SliceContains slice str

/-- The outcome of `os.Stat`: the file information (here whether the path is a
directory) with a nil error, or no information with an error that either says
the path does not exist or is another failure. -/
inductive StatResult where
  | info (isDir : Bool)
  | notExist
  | otherError
  deriving DecidableEq, Repr

/-- The function `fileExists`, with the outcome of `os.Stat(filename)` as its
input.  On an error the returned `info` is nil, and `info.IsDir()` on it panics. -/
def fileExists (stat : StatResult) : Except GoPanic Bool :=
  match stat with
  | .notExist => .ok false
  | .info isDir => .ok (!isDir)
  | .otherError => .error .nilDereference

/-- The function `mmlsfs`, with the process runner `execCommand` as its
parameter: the runner is given the program and its arguments and gives the
bytes the process wrote to standard output and the error of `cmd.Run()`. -/
def mmlsfs (execCommand : GoString → List GoString → GoString × Option GoError) :
    GoString × Option GoError :=
  let run := execCommand (str "sudo")
    [str "/usr/lpp/mmfs/bin/mmlsfs", str "all", str "-Y", str "-T"]
  match run.2 with
  | some err => ([], some err)
  | none => (run.1, none)

/-! ## The status parser -/

theorem Split_ne_nil (sep : Nat) (s : GoString) : Split sep s ≠ [] := by
  induction s with
  | nil => simp [Split]
  | cons c cs ih =>
    unfold Split
    split
    · simp
    · split <;> simp

theorem Split_of_not_mem (sep : Nat) (l : GoString) (h : sep ∉ l) : Split sep l = [l] := by
  induction l with
  | nil => rfl
  | cons c cs ih =>
    have hc : c ≠ sep := fun e => h (by simp [e])
    have hcs : sep ∉ cs := fun e => h (by simp [e])
    simp [Split, hc, ih hcs]

theorem Split_append_sep (sep : Nat) (l s : GoString) (h : sep ∉ l) :
    Split sep (l ++ sep :: s) = l :: Split sep s := by
  induction l with
  | nil => simp [Split]
  | cons c cs ih =>
    have hc : c ≠ sep := fun e => h (by simp [e])
    have hcs : sep ∉ cs := fun e => h (by simp [e])
    simp [Split, hc, ih hcs]

theorem Join_cons_cons (sep : Nat) (l l2 : GoString) (ls : List GoString) :
    Join sep (l :: l2 :: ls) = l ++ sep :: Join sep (l2 :: ls) := rfl

theorem Split_Join (sep : Nat) (ls : List GoString) (hne : ls ≠ [])
    (h : ∀ l ∈ ls, sep ∉ l) : Split sep (Join sep ls) = ls := by
  induction ls with
  | nil => exact absurd rfl hne
  | cons l ls ih =>
    cases ls with
    | nil => simpa [Join] using Split_of_not_mem sep l (h l (by simp))
    | cons l2 ls' =>
      rw [Join_cons_cons, Split_append_sep sep l _ (h l (by simp)),
        ih (by simp) (fun x hx => h x (List.mem_cons_of_mem _ hx))]

theorem not_mem_of_mem_Split (sep : Nat) (s l : GoString) (hl : l ∈ Split sep s) :
    sep ∉ l := by
  induction s generalizing l with
  | nil =>
    simp [Split] at hl
    simp [hl]
  | cons c cs ih =>
    unfold Split at hl
    split at hl
    · rcases List.mem_cons.1 hl with h | h
      · simp [h]
      · exact ih l h
    · rename_i hc
      split at hl
      · simp at hl
        simp [hl]
        exact fun e => hc e.symm
      · rename_i piece pieces heq
        rcases List.mem_cons.1 hl with h | h
        · have hp : sep ∉ piece := ih piece (by simp [heq])
          simp [h, hp]
          exact fun e => hc e.symm
        · exact ih l (by simp [heq, h])

/-! ## Lemmas on the loop of `parse_mmlsfs` -/

theorem parse_mmlsfs_loop_cons (line : GoString) (lines : List GoString)
    (acc : List GPFSFilesystem) :
    parse_mmlsfs_loop (line :: lines) acc =
      if (Split colon line).length < 7 then parse_mmlsfs_loop lines acc
      else
        match index (Split colon line) 2 with
        | .error p => .error p
        | .ok item2 =>
          if item2 = str "HEADER" then parse_mmlsfs_loop lines acc
          else
            match index (Split colon line) 6 with
            | .error p => .error p
            | .ok name =>
              match index (Split colon line) 8 with
              | .error p => .error p
              | .ok item8 =>
                match QueryUnescape item8 with
                | .error _ => parse_mmlsfs_loop lines acc
                | .ok mountpoint =>
                  parse_mmlsfs_loop lines (acc ++ [{ Name := name, Mountpoint := mountpoint }]) := by
  rw [parse_mmlsfs_loop]


theorem parse_mmlsfs_loop_skip (line : GoString) (lines : List GoString)
    (acc : List GPFSFilesystem)
    (h : (Split colon line).length < 7 ∨ (Split colon line)[2]? = some (str "HEADER")) :
    parse_mmlsfs_loop (line :: lines) acc = parse_mmlsfs_loop lines acc := by
  rw [parse_mmlsfs_loop_cons]
  by_cases hlen : (Split colon line).length < 7
  · simp [hlen]
  · rcases h with h | h
    · exact absurd h hlen
    · simp [hlen, index, h]

theorem parse_mmlsfs_loop_undecodable (line : GoString) (lines : List GoString)
    (acc : List GPFSFilesystem) (item8 : GoString) (e : GoError)
    (h8 : (Split colon line)[8]? = some item8) (hq : QueryUnescape item8 = .error e) :
    parse_mmlsfs_loop (line :: lines) acc = parse_mmlsfs_loop lines acc := by
  have hlen : 8 < (Split colon line).length := by
    rcases List.getElem?_eq_some_iff.1 h8 with ⟨h, _⟩
    exact h
  have h2 : ∃ x, (Split colon line)[2]? = some x :=
    ⟨_, List.getElem?_eq_getElem (by omega)⟩
  have h6 : ∃ x, (Split colon line)[6]? = some x :=
    ⟨_, List.getElem?_eq_getElem (by omega)⟩
  obtain ⟨x2, h2⟩ := h2
  obtain ⟨x6, h6⟩ := h6
  rw [parse_mmlsfs_loop_cons]
  have hlen' : ¬ (Split colon line).length < 7 := by omega
  simp only [hlen', if_false, index, h2, h6, h8, hq]
  split <;> rfl

theorem parse_mmlsfs_loop_record (line : GoString) (lines : List GoString)
    (acc : List GPFSFilesystem) (item2 name item8 mountpoint : GoString)
    (h2 : (Split colon line)[2]? = some item2) (hh : item2 ≠ str "HEADER")
    (h6 : (Split colon line)[6]? = some name)
    (h8 : (Split colon line)[8]? = some item8) (hq : QueryUnescape item8 = .ok mountpoint) :
    parse_mmlsfs_loop (line :: lines) acc =
      parse_mmlsfs_loop lines (acc ++ [{ Name := name, Mountpoint := mountpoint }]) := by
  have hlen : 8 < (Split colon line).length := by
    rcases List.getElem?_eq_some_iff.1 h8 with ⟨h, _⟩
    exact h
  rw [parse_mmlsfs_loop_cons]
  have hlen' : ¬ (Split colon line).length < 7 := by omega
  simp only [hlen', if_false, index, h2, h6, h8, hq, hh]

theorem parse_mmlsfs_loop_cases (line : GoString) :
    (∀ lines acc, parse_mmlsfs_loop (line :: lines) acc = parse_mmlsfs_loop lines acc) ∨
    (∃ p, ∀ lines acc, parse_mmlsfs_loop (line :: lines) acc = .error p) ∨
    (∃ r, ∀ lines acc,
      parse_mmlsfs_loop (line :: lines) acc = parse_mmlsfs_loop lines (acc ++ [r])) := by
  by_cases hlen : (Split colon line).length < 7
  · exact Or.inl (fun lines acc => parse_mmlsfs_loop_skip line lines acc (Or.inl hlen))
  · cases h2 : index (Split colon line) 2 with
    | error p =>
      refine Or.inr (Or.inl ⟨p, fun lines acc => ?_⟩)
      rw [parse_mmlsfs_loop_cons]
      simp [hlen, h2]
    | ok item2 =>
      by_cases hh : item2 = str "HEADER"
      · refine Or.inl (fun lines acc => ?_)
        rw [parse_mmlsfs_loop_cons]
        simp [hlen, h2, hh]
      · cases h6 : index (Split colon line) 6 with
        | error p =>
          refine Or.inr (Or.inl ⟨p, fun lines acc => ?_⟩)
          rw [parse_mmlsfs_loop_cons]
          simp [hlen, h2, hh, h6]
        | ok name =>
          cases h8 : index (Split colon line) 8 with
          | error p =>
            refine Or.inr (Or.inl ⟨p, fun lines acc => ?_⟩)
            rw [parse_mmlsfs_loop_cons]
            simp [hlen, h2, hh, h6, h8]
          | ok item8 =>
            cases hq : QueryUnescape item8 with
            | error e =>
              refine Or.inl (fun lines acc => ?_)
              rw [parse_mmlsfs_loop_cons]
              simp [hlen, h2, hh, h6, h8, hq]
            | ok mountpoint =>
              refine Or.inr (Or.inr ⟨{ Name := name, Mountpoint := mountpoint },
                fun lines acc => ?_⟩)
              rw [parse_mmlsfs_loop_cons]
              simp [hlen, h2, hh, h6, h8, hq]

theorem parse_mmlsfs_loop_acc (lines : List GoString) (acc : List GPFSFilesystem) :
    parse_mmlsfs_loop lines acc =
      match parse_mmlsfs_loop lines [] with
      | .error p => .error p
      | .ok records => .ok (acc ++ records) := by
  induction lines generalizing acc with
  | nil => simp [parse_mmlsfs_loop]
  | cons line lines ih =>
    rcases parse_mmlsfs_loop_cases line with h | ⟨p, h⟩ | ⟨r, h⟩
    · rw [h, h]
      exact ih acc
    · rw [h, h]
    · rw [h, h, ih (acc ++ [r]), ih ([] ++ [r])]
      cases parse_mmlsfs_loop lines [] <;> simp

theorem parse_mmlsfs_loop_append (xs ys : List GoString) (acc : List GPFSFilesystem) :
    parse_mmlsfs_loop (xs ++ ys) acc =
      match parse_mmlsfs_loop xs acc with
      | .error p => .error p
      | .ok records => parse_mmlsfs_loop ys records := by
  induction xs generalizing acc with
  | nil => simp [parse_mmlsfs_loop]
  | cons line lines ih =>
    rw [List.cons_append]
    rcases parse_mmlsfs_loop_cases line with h | ⟨p, h⟩ | ⟨r, h⟩
    · rw [h, h]
      exact ih acc
    · rw [h, h]
    · rw [h, h]
      exact ih _

/-- The result of `parse_mmlsfs` on a text given by its lines. -/
theorem parse_mmlsfs_of_lines (out : GoString) (lines : List GoString)
    (h : Split newline out = lines) :
    parse_mmlsfs out =
      match parse_mmlsfs_loop lines [] with
      | .error p => .error p
      | .ok filesystems => .ok (filesystems, none) := by
  rw [parse_mmlsfs, h]

theorem parse_mmlsfs_Join (lines : List GoString) (h : ∀ l ∈ lines, newline ∉ l) :
    parse_mmlsfs (Join newline lines) =
      match parse_mmlsfs_loop lines [] with
      | .error p => .error p
      | .ok filesystems => .ok (filesystems, none) := by
  cases lines with
  | nil => decide
  | cons l ls =>
    exact parse_mmlsfs_of_lines _ _ (Split_Join newline (l :: ls) (by simp) h)

/-! ## Lemmas on percent decoding -/

theorem ishex_ne_percent (a : Nat) (h : ishex a = true) : a ≠ percent := by
  intro e
  subst e
  revert h
  decide

theorem hasBadEscape_cons (c : Nat) (rest : GoString) :
    hasBadEscape (c :: rest) =
      ((c = percent &&
        !(match rest with
          | a :: b :: _ => ishex a && ishex b
          | _ => false)) || hasBadEscape rest) := by
  rcases rest with _ | ⟨a, _ | ⟨b, rest'⟩⟩ <;> rfl

theorem hasBadEscape_hex (a : Nat) (rest : GoString) (h : ishex a = true) :
    hasBadEscape (a :: rest) = hasBadEscape rest := by
  have := ishex_ne_percent a h
  simp [hasBadEscape_cons, this]

theorem QueryUnescape_cons (c : Nat) (rest : GoString) :
    QueryUnescape (c :: rest) =
      if c = percent then
        match rest with
        | a :: b :: rest' =>
          if ishex a && ishex b then
            match QueryUnescape rest' with
            | .ok t => .ok ((((unhex a <<< 4) % 256) ||| unhex b) :: t)
            | .error e => .error e
          else .error (.EscapeError [c, a, b])
        | _ => .error (.EscapeError (c :: rest))
      else
        match QueryUnescape rest with
        | .ok t => .ok ((if c = plus then space else c) :: t)
        | .error e => .error e := by
  rcases rest with _ | ⟨a, _ | ⟨b, rest'⟩⟩ <;> rfl

theorem QueryUnescape_isOk (s : GoString) :
    (QueryUnescape s).isOk = !hasBadEscape s := by
  induction s using QueryUnescape.induct with
  | case1 => rfl
  | case2 a b rest' hab t ht ih =>
    have ha : ishex a = true := by simp at hab; exact hab.1
    have hb : ishex b = true := by simp at hab; exact hab.2
    rw [QueryUnescape_cons]
    simp only [if_true, hab, ht]
    rw [ht] at ih
    rw [hasBadEscape_cons, hasBadEscape_hex a _ ha, hasBadEscape_hex b _ hb]
    simpa [ha, hb, Except.isOk, Except.toBool] using ih
  | case3 a b rest' hab e he ih =>
    have ha : ishex a = true := by simp at hab; exact hab.1
    have hb : ishex b = true := by simp at hab; exact hab.2
    rw [QueryUnescape_cons]
    simp only [if_true, hab, he]
    rw [he] at ih
    rw [hasBadEscape_cons, hasBadEscape_hex a _ ha, hasBadEscape_hex b _ hb]
    simpa [ha, hb, Except.isOk, Except.toBool] using ih
  | case4 a b rest' hab =>
    rw [QueryUnescape_cons]
    simp only [if_true, hab]
    rw [hasBadEscape_cons]
    simp [hab, Except.isOk, Except.toBool]
  | case5 cs hcs =>
    rw [QueryUnescape_cons, hasBadEscape_cons]
    cases cs with
    | nil => simp [Except.isOk, Except.toBool]
    | cons a cs =>
      cases cs with
      | nil => simp [Except.isOk, Except.toBool]
      | cons b cs => exact absurd rfl (fun h => hcs a b cs h)
  | case6 c cs hc t ht ih =>
    rw [QueryUnescape_cons]
    simp only [hc, if_false, ht]
    rw [ht] at ih
    rw [hasBadEscape_cons]
    simpa [hc, Except.isOk, Except.toBool] using ih
  | case7 c cs hc e he ih =>
    rw [QueryUnescape_cons]
    simp only [hc, if_false, he]
    rw [he] at ih
    rw [hasBadEscape_cons]
    simpa [hc, Except.isOk, Except.toBool] using ih

theorem QueryUnescape_error_of_hasBadEscape (s : GoString) (h : hasBadEscape s = true) :
    ∃ e, QueryUnescape s = .error e := by
  have hok := QueryUnescape_isOk s
  rw [h] at hok
  cases hq : QueryUnescape s with
  | error e => exact ⟨e, rfl⟩
  | ok t => rw [hq] at hok; simp [Except.isOk, Except.toBool] at hok


theorem parse_mmlsfs_error_nil (out : GoString) (r : List GPFSFilesystem × Option GoError)
    (h : parse_mmlsfs out = .ok r) : r.2 = none := by
  unfold parse_mmlsfs at h
  split at h
  · exact absurd h (by simp)
  · injection h with h
    rw [← h]

theorem parse_mmlsfs_loop_of_Join (lines : List GoString) (h : ∀ l ∈ lines, newline ∉ l)
    (records : List GPFSFilesystem)
    (hp : parse_mmlsfs (Join newline lines) = .ok (records, none)) :
    parse_mmlsfs_loop lines [] = .ok records := by
  rw [parse_mmlsfs_Join lines h] at hp
  cases hl : parse_mmlsfs_loop lines [] with
  | error p => rw [hl] at hp; exact absurd hp (by simp)
  | ok fs =>
    rw [hl] at hp
    simp only [Except.ok.injEq, Prod.mk.injEq, and_true] at hp
    rw [hp]

/-- A row whose pass of the loop appends the records `recs` (none or one)
contributes exactly these, between the records of the rows before it and the
records of the rows after it. -/
theorem parse_mmlsfs_row_context (out : GoString) (pre post : List GoString) (row : GoString)
    (recs : List GPFSFilesystem)
    (hrow : Split newline out = pre ++ row :: post)
    (hstep : ∀ lines acc,
      parse_mmlsfs_loop (row :: lines) acc = parse_mmlsfs_loop lines (acc ++ recs))
    (before after : List GPFSFilesystem)
    (hpre : parse_mmlsfs (Join newline pre) = .ok (before, none))
    (hpost : parse_mmlsfs (Join newline post) = .ok (after, none)) :
    parse_mmlsfs out = .ok (before ++ recs ++ after, none) := by
  have hfree : ∀ l ∈ pre ++ row :: post, newline ∉ l := by
    intro l hl
    rw [← hrow] at hl
    exact not_mem_of_mem_Split newline out l hl
  have h1 := parse_mmlsfs_loop_of_Join pre
    (fun l hl => hfree l (List.mem_append_left _ hl)) before hpre
  have h2 := parse_mmlsfs_loop_of_Join post
    (fun l hl => hfree l (List.mem_append_right _ (List.mem_cons_of_mem _ hl))) after hpost
  rw [parse_mmlsfs_of_lines out _ hrow, parse_mmlsfs_loop_append, h1]
  simp only []
  rw [hstep, parse_mmlsfs_loop_acc, h2]

/-- A row that the loop skips can be removed from the text. -/
theorem parse_mmlsfs_remove_row (out : GoString) (pre post : List GoString) (row : GoString)
    (hrow : Split newline out = pre ++ row :: post)
    (hstep : ∀ lines acc, parse_mmlsfs_loop (row :: lines) acc = parse_mmlsfs_loop lines acc) :
    parse_mmlsfs out = parse_mmlsfs (Join newline (pre ++ post)) := by
  have hfree : ∀ l ∈ pre ++ row :: post, newline ∉ l := by
    intro l hl
    rw [← hrow] at hl
    exact not_mem_of_mem_Split newline out l hl
  have hfree' : ∀ l ∈ pre ++ post, newline ∉ l := by
    intro l hl
    rcases List.mem_append.1 hl with h | h
    · exact hfree l (List.mem_append_left _ h)
    · exact hfree l (List.mem_append_right _ (List.mem_cons_of_mem _ h))
  rw [parse_mmlsfs_of_lines out _ hrow, parse_mmlsfs_Join _ hfree', parse_mmlsfs_loop_append,
    parse_mmlsfs_loop_append pre post]
  cases parse_mmlsfs_loop pre [] with
  | error p => rfl
  | ok records =>
    simp only []
    rw [hstep]

/-! ## The claims on `parse_mmlsfs` -/

/-- C1, counterexample.  The row `mmlsfs::0:1:::fs1:defaultMountPoint:%zz` has
nine fields and its field at index 2 is not `HEADER`, yet `parse_mmlsfs`
produces no record for it, its field at index 8 having no percent-decoding.
The row `mmlsfs::0:1:::fs1` has seven fields and a field at index 2 that is
not `HEADER`, and `parse_mmlsfs` returns no record for it either: it has no
field at index 8. -/
theorem parse_mmlsfs_row_without_record :
    (7 ≤ (Split colon (str "mmlsfs::0:1:::fs1:defaultMountPoint:%zz")).length ∧
      (Split colon (str "mmlsfs::0:1:::fs1:defaultMountPoint:%zz"))[2]? ≠
        some (str "HEADER") ∧
      parse_mmlsfs (str "mmlsfs::0:1:::fs1:defaultMountPoint:%zz") = .ok ([], none)) ∧
    (7 ≤ (Split colon (str "mmlsfs::0:1:::fs1")).length ∧
      (Split colon (str "mmlsfs::0:1:::fs1"))[2]? ≠ some (str "HEADER") ∧
      (Split colon (str "mmlsfs::0:1:::fs1"))[8]? = none ∧
      parse_mmlsfs (str "mmlsfs::0:1:::fs1") = .error (.indexOutOfRange 8 7)) := by
  decide

/-- C1, amended.  For every input text and every row of it that has a field at
index 8, whose field at index 2 is not `HEADER` and whose field at index 8
percent-decodes, `parse_mmlsfs` produces exactly one record for that row, with
`Name` the field at index 6 and `Mountpoint` the decoded field at index 8: when
the rows before it give the records `before` and the rows after it give the
records `after`, the text gives `before`, this record, `after`, with a nil
error. -/
theorem parse_mmlsfs_row_record (out : GoString) (pre post : List GoString) (row : GoString)
    (item2 name item8 mountpoint : GoString) (before after : List GPFSFilesystem)
    (hrow : Split newline out = pre ++ row :: post)
    (h2 : (Split colon row)[2]? = some item2) (hh : item2 ≠ str "HEADER")
    (h6 : (Split colon row)[6]? = some name)
    (h8 : (Split colon row)[8]? = some item8)
    (hq : QueryUnescape item8 = .ok mountpoint)
    (hpre : parse_mmlsfs (Join newline pre) = .ok (before, none))
    (hpost : parse_mmlsfs (Join newline post) = .ok (after, none)) :
    parse_mmlsfs out =
      .ok (before ++ [{ Name := name, Mountpoint := mountpoint }] ++ after, none) :=
  parse_mmlsfs_row_context out pre post row _ hrow
    (fun lines acc =>
      parse_mmlsfs_loop_record row lines acc item2 name item8 mountpoint h2 hh h6 h8 hq)
    before after hpre hpost

/-- C1, amended, at the text of three rows
`mmlsfs::0:1:::a:defaultMountPoint:%2Fa`, `mmlsfs::0:1:::fs1:defaultMountPoint:%2Fmnt%2Ffs+1`
and `mmlsfs::0:1:::b:defaultMountPoint:%2Fb`, for its second row. -/
theorem parse_mmlsfs_row_record_witness :
    parse_mmlsfs (str
      "mmlsfs::0:1:::a:defaultMountPoint:%2Fa\nmmlsfs::0:1:::fs1:defaultMountPoint:%2Fmnt%2Ffs+1\nmmlsfs::0:1:::b:defaultMountPoint:%2Fb") =
      .ok ([{ Name := str "a", Mountpoint := str "/a" }] ++
        [{ Name := str "fs1", Mountpoint := str "/mnt/fs 1" }] ++
        [{ Name := str "b", Mountpoint := str "/b" }], none) :=
  parse_mmlsfs_row_record
    (str "mmlsfs::0:1:::a:defaultMountPoint:%2Fa\nmmlsfs::0:1:::fs1:defaultMountPoint:%2Fmnt%2Ffs+1\nmmlsfs::0:1:::b:defaultMountPoint:%2Fb")
    [str "mmlsfs::0:1:::a:defaultMountPoint:%2Fa"]
    [str "mmlsfs::0:1:::b:defaultMountPoint:%2Fb"]
    (str "mmlsfs::0:1:::fs1:defaultMountPoint:%2Fmnt%2Ffs+1")
    (str "0") (str "fs1") (str "%2Fmnt%2Ffs+1") (str "/mnt/fs 1")
    [{ Name := str "a", Mountpoint := str "/a" }]
    [{ Name := str "b", Mountpoint := str "/b" }]
    (by decide) (by decide) (by decide) (by decide) (by decide) (by decide) (by decide)
    (by decide)

/-- C2.  For every input text, a row with fewer than 7 fields, or whose field at
index 2 is `HEADER`, contributes no record and causes no error: the result of
`parse_mmlsfs` is the result on the text without that row, the row alone gives
no record and a nil error, and every error that is returned is nil. -/
theorem parse_mmlsfs_skipped_row (out : GoString) (pre post : List GoString) (row : GoString)
    (hrow : Split newline out = pre ++ row :: post)
    (h : (Split colon row).length < 7 ∨ (Split colon row)[2]? = some (str "HEADER")) :
    parse_mmlsfs out = parse_mmlsfs (Join newline (pre ++ post)) ∧
    parse_mmlsfs row = .ok ([], none) ∧
    ∀ r, parse_mmlsfs out = .ok r → r.2 = none := by
  refine ⟨parse_mmlsfs_remove_row out pre post row hrow
    (fun lines acc => parse_mmlsfs_loop_skip row lines acc h), ?_,
    fun r hr => parse_mmlsfs_error_nil out r hr⟩
  have hfree : newline ∉ row :=
    not_mem_of_mem_Split newline out row (by rw [hrow]; simp)
  rw [parse_mmlsfs_of_lines row [row] (Split_of_not_mem newline row hfree),
    parse_mmlsfs_loop_skip row [] [] h]
  rfl

/-- C2, at the text of the rows `mmlsfs::0:1:::a:defaultMountPoint:%2Fa`,
`mmlsfs::HEADER:version:reserved:reserved:deviceName:fieldName:data:remarks:`
and the empty row, for its second row and for its third row. -/
theorem parse_mmlsfs_skipped_row_witness :
    parse_mmlsfs (str
      "mmlsfs::0:1:::a:defaultMountPoint:%2Fa\nmmlsfs::HEADER:version:reserved:reserved:deviceName:fieldName:data:remarks:\n") =
      parse_mmlsfs (Join newline ([str "mmlsfs::0:1:::a:defaultMountPoint:%2Fa"] ++ [[]])) ∧
    parse_mmlsfs
      (str "mmlsfs::HEADER:version:reserved:reserved:deviceName:fieldName:data:remarks:") =
      .ok ([], none) ∧
    parse_mmlsfs [] = .ok ([], none) :=
  ⟨(parse_mmlsfs_skipped_row
      (str "mmlsfs::0:1:::a:defaultMountPoint:%2Fa\nmmlsfs::HEADER:version:reserved:reserved:deviceName:fieldName:data:remarks:\n")
      [str "mmlsfs::0:1:::a:defaultMountPoint:%2Fa"] [[]]
      (str "mmlsfs::HEADER:version:reserved:reserved:deviceName:fieldName:data:remarks:")
      (by decide) (Or.inr (by decide))).1,
    (parse_mmlsfs_skipped_row
      (str "mmlsfs::0:1:::a:defaultMountPoint:%2Fa\nmmlsfs::HEADER:version:reserved:reserved:deviceName:fieldName:data:remarks:\n")
      [str "mmlsfs::0:1:::a:defaultMountPoint:%2Fa"] [[]]
      (str "mmlsfs::HEADER:version:reserved:reserved:deviceName:fieldName:data:remarks:")
      (by decide) (Or.inr (by decide))).2.1,
    (parse_mmlsfs_skipped_row
      (str "mmlsfs::0:1:::a:defaultMountPoint:%2Fa\nmmlsfs::HEADER:version:reserved:reserved:deviceName:fieldName:data:remarks:\n")
      [str "mmlsfs::0:1:::a:defaultMountPoint:%2Fa",
        str "mmlsfs::HEADER:version:reserved:reserved:deviceName:fieldName:data:remarks:"] []
      [] (by decide) (Or.inl (by decide))).2.1⟩

/-- C3.  For every input text, a row whose field at index 8 has a `%` that is
not followed by two hexadecimal digits fails percent-decoding and is dropped,
and parsing continues: the result of `parse_mmlsfs` is the result on the text
without that row, and when the rows before it give the records `before` and
the rows after it give the records `after`, the text gives `before` followed
by `after`, with a nil error. -/
theorem parse_mmlsfs_undecodable_row (out : GoString) (pre post : List GoString)
    (row item8 : GoString)
    (hrow : Split newline out = pre ++ row :: post)
    (h8 : (Split colon row)[8]? = some item8)
    (hbad : hasBadEscape item8 = true) :
    (∃ e, QueryUnescape item8 = .error e) ∧
    parse_mmlsfs out = parse_mmlsfs (Join newline (pre ++ post)) ∧
    ∀ before after,
      parse_mmlsfs (Join newline pre) = .ok (before, none) →
      parse_mmlsfs (Join newline post) = .ok (after, none) →
      parse_mmlsfs out = .ok (before ++ after, none) := by
  obtain ⟨e, he⟩ := QueryUnescape_error_of_hasBadEscape item8 hbad
  have hstep : ∀ lines acc,
      parse_mmlsfs_loop (row :: lines) acc = parse_mmlsfs_loop lines acc :=
    fun lines acc => parse_mmlsfs_loop_undecodable row lines acc item8 e h8 he
  refine ⟨⟨e, he⟩, parse_mmlsfs_remove_row out pre post row hrow hstep, ?_⟩
  intro before after hpre hpost
  have := parse_mmlsfs_row_context out pre post row [] hrow
    (fun lines acc => by rw [hstep, List.append_nil]) before after hpre hpost
  simpa using this

/-- C3, at the text of the rows `mmlsfs::0:1:::a:defaultMountPoint:%2Fa`,
`mmlsfs::0:1:::bad:defaultMountPoint:%2Fmnt%2`
and `mmlsfs::0:1:::b:defaultMountPoint:%2Fb`, for its second row. -/
theorem parse_mmlsfs_undecodable_row_witness :
    parse_mmlsfs (str
      "mmlsfs::0:1:::a:defaultMountPoint:%2Fa\nmmlsfs::0:1:::bad:defaultMountPoint:%2Fmnt%2\nmmlsfs::0:1:::b:defaultMountPoint:%2Fb") =
      .ok ([{ Name := str "a", Mountpoint := str "/a" }] ++
        [{ Name := str "b", Mountpoint := str "/b" }], none) :=
  (parse_mmlsfs_undecodable_row
    (str "mmlsfs::0:1:::a:defaultMountPoint:%2Fa\nmmlsfs::0:1:::bad:defaultMountPoint:%2Fmnt%2\nmmlsfs::0:1:::b:defaultMountPoint:%2Fb")
    [str "mmlsfs::0:1:::a:defaultMountPoint:%2Fa"]
    [str "mmlsfs::0:1:::b:defaultMountPoint:%2Fb"]
    (str "mmlsfs::0:1:::bad:defaultMountPoint:%2Fmnt%2") (str "%2Fmnt%2")
    (by decide) (by decide) (by decide)).2.2
    [{ Name := str "a", Mountpoint := str "/a" }]
    [{ Name := str "b", Mountpoint := str "/b" }] (by decide) (by decide)

/-- C4, the failing input.  On the text of the rows
`mmlsfs::0:1:::a:defaultMountPoint:%2Fa` and `1:2:3:4:5:6:7`, the second of
seven fields, `parse_mmlsfs` returns no result, so no nil error: the index
expression `items[8]` panics. -/
theorem parse_mmlsfs_seven_fields_panics :
    parse_mmlsfs (str "mmlsfs::0:1:::a:defaultMountPoint:%2Fa\n1:2:3:4:5:6:7") =
      .error (.indexOutOfRange 8 7) := by
  decide

/-- C5, counterexample.  On the two-line text of the worked example
`parse_mmlsfs` does not return the record with `Name` `fs1` and `Mountpoint`
`/mnt/data1`. -/
theorem parse_mmlsfs_example_differs :
    parse_mmlsfs (str "%:HEADER:...\n%:0:1:2:3:4:5:fs1:7:%2Fmnt%2Fdata1:") ≠
      .ok ([{ Name := str "fs1", Mountpoint := str "/mnt/data1" }], none) := by
  decide

/-- C5, amended.  On the two-line text of the worked example `parse_mmlsfs`
returns exactly one record with a nil error, made of the fields at index 6 and
8 of the second line, which are `5` and `7`; the record with `Name` `fs1` and
`Mountpoint` `/mnt/data1` is returned for the second line
`%:0:1:2:3:4:fs1:7:%2Fmnt%2Fdata1:`, where these are the fields at index 6 and 8. -/
theorem parse_mmlsfs_spec_example :
    parse_mmlsfs (str "%:HEADER:...\n%:0:1:2:3:4:5:fs1:7:%2Fmnt%2Fdata1:") =
      .ok ([{ Name := str "5", Mountpoint := str "7" }], none) ∧
    parse_mmlsfs (str "%:HEADER:...\n%:0:1:2:3:4:fs1:7:%2Fmnt%2Fdata1:") =
      .ok ([{ Name := str "fs1", Mountpoint := str "/mnt/data1" }], none) := by
  decide

/-! ## Lemmas on maps and on the registry -/

theorem lookupEntry_assignEntry {V : Type} (k k' : GoString) (v : V)
    (es : List (GoString × V)) :
    lookupEntry k' (assignEntry k v es) = if k = k' then some v else lookupEntry k' es := by
  induction es with
  | nil => simp [assignEntry, lookupEntry]
  | cons e es ih =>
    obtain ⟨k0, v0⟩ := e
    by_cases h0 : k0 = k
    · subst h0
      by_cases h1 : k0 = k' <;> simp [assignEntry, lookupEntry, h1]
    · by_cases h1 : k0 = k'
      · subst h1
        have h2 : ¬ k = k0 := fun e => h0 e.symm
        simp [assignEntry, lookupEntry, h0, h2]
      · simp [assignEntry, lookupEntry, h0, h1, ih]

theorem GoMap.get?_set {V : Type} (m : GoMap V) (k k' : GoString) (v : V) :
    (m.set k v).get? k' = if k = k' then some v else m.get? k' :=
  lookupEntry_assignEntry k k' v m.entries

theorem lookupEntry_eq_none {V : Type} (k : GoString) (es : List (GoString × V))
    (h : k ∉ es.map Prod.fst) : lookupEntry k es = none := by
  induction es with
  | nil => rfl
  | cons e es ih =>
    obtain ⟨k0, v0⟩ := e
    have h0 : ¬ k0 = k := fun e => h (by simp [e])
    have h1 : k ∉ es.map Prod.fst := fun e => h (by simp at e ⊢; exact Or.inr e)
    simp [lookupEntry, h0, ih h1]

/-- The loop of `NewGPFSCollector` over well-formed entries never panics, and
the map it returns holds, for the keys visited with a true flag, what their
factories return, and for every other key what it held before. -/
theorem NewGPFSCollector_loop_spec {Collector : Type} (r : Registry Collector)
    (es : List (GoString × Nat)) (acc : GoMap Collector)
    (hnd : (es.map Prod.fst).Nodup)
    (hwf : ∀ e ∈ es, e.2 < r.flags.length ∧ (r.factories.get? e.1).isSome = true) :
    ∃ res, NewGPFSCollector_loop r es acc = .ok res ∧
      ∀ name, res.get? name =
        match lookupEntry name es with
        | none => acc.get? name
        | some p =>
          if (r.flags[p]?).map FlagClause.value = some true then
            (r.factories.get? name).map (fun factory => factory ())
          else acc.get? name := by
  induction es generalizing acc with
  | nil => exact ⟨acc, rfl, fun name => rfl⟩
  | cons e es ih =>
    obtain ⟨key, p⟩ := e
    have hkey : key ∉ es.map Prod.fst := (List.nodup_cons.1 hnd).1
    have hnd' : (es.map Prod.fst).Nodup := (List.nodup_cons.1 hnd).2
    have hwf' : ∀ e ∈ es, e.2 < r.flags.length ∧ (r.factories.get? e.1).isSome = true :=
      fun e he => hwf e (List.mem_cons_of_mem _ he)
    obtain ⟨hp, hf⟩ := hwf (key, p) (by simp)
    obtain ⟨factory, hfac⟩ := Option.isSome_iff_exists.1 hf
    have hflag : r.flags[p]? = some r.flags[p] := List.getElem?_eq_getElem hp
    cases hv : r.flags[p].value with
    | true =>
      obtain ⟨res, hres, hget⟩ := ih (acc.set key (factory ())) hnd' hwf'
      refine ⟨res, ?_, ?_⟩
      · rw [NewGPFSCollector_loop]
        simp only [deref, hflag, hv, hfac]
        exact hres
      · intro name
        rw [hget name]
        by_cases hn : key = name
        · subst hn
          simp [lookupEntry, lookupEntry_eq_none key es hkey, GoMap.get?_set, hflag, hv, hfac]
        · simp [lookupEntry, hn, GoMap.get?_set]
    | false =>
      obtain ⟨res, hres, hget⟩ := ih acc hnd' hwf'
      refine ⟨res, ?_, ?_⟩
      · rw [NewGPFSCollector_loop]
        simp only [deref, hflag, hv]
        exact hres
      · intro name
        rw [hget name]
        by_cases hn : key = name
        · subst hn
          simp [lookupEntry, lookupEntry_eq_none key es hkey, hflag, hv]
        · simp [lookupEntry, hn]

theorem lookupEntry_mem {V : Type} (k : GoString) (v : V) (es : List (GoString × V))
    (h : lookupEntry k es = some v) : (k, v) ∈ es := by
  induction es with
  | nil => simp [lookupEntry] at h
  | cons e es ih =>
    obtain ⟨k0, v0⟩ := e
    by_cases h0 : k0 = k
    · simp [lookupEntry, h0] at h
      simp [h0, h]
    · simp [lookupEntry, h0] at h
      exact List.mem_cons_of_mem _ (ih h)

theorem mem_assignEntry {V : Type} (k : GoString) (v : V) (es : List (GoString × V))
    (e : GoString × V) (h : e ∈ assignEntry k v es) : e = (k, v) ∨ e ∈ es := by
  induction es with
  | nil =>
    simp [assignEntry] at h
    exact Or.inl h
  | cons e0 es ih =>
    obtain ⟨k0, v0⟩ := e0
    by_cases h0 : k0 = k
    · simp only [assignEntry, h0, if_true, List.mem_cons] at h
      rcases h with h | h
      · exact Or.inl h
      · exact Or.inr (List.mem_cons_of_mem _ h)
    · simp only [assignEntry, h0, if_false, List.mem_cons] at h
      rcases h with h | h
      · exact Or.inr (by simp [h])
      · rcases ih h with h | h
        · exact Or.inl h
        · exact Or.inr (List.mem_cons_of_mem _ h)

theorem keys_assignEntry {V : Type} (k : GoString) (v : V) (es : List (GoString × V)) :
    (assignEntry k v es).map Prod.fst =
      if k ∈ es.map Prod.fst then es.map Prod.fst else es.map Prod.fst ++ [k] := by
  induction es with
  | nil => simp [assignEntry]
  | cons e0 es ih =>
    obtain ⟨k0, v0⟩ := e0
    by_cases h0 : k0 = k
    · simp [assignEntry, h0]
    · have h1 : ¬ k = k0 := fun e => h0 e.symm
      simp only [assignEntry, h0, if_false, List.map_cons, ih, List.mem_cons, h1, false_or]
      split <;> simp

theorem nodup_keys_assignEntry {V : Type} (k : GoString) (v : V) (es : List (GoString × V))
    (h : (es.map Prod.fst).Nodup) : ((assignEntry k v es).map Prod.fst).Nodup := by
  rw [keys_assignEntry]
  split
  · exact h
  · rename_i hk
    exact List.Nodup.append h (by simp) (by simpa using hk)

/-- The state before any registration is a registry state. -/
theorem Registry.WF_empty {Collector : Type} : (Registry.empty : Registry Collector).WF := by
  constructor
  · simp [Registry.empty, GoMap.empty, GoMap.keys]
  · intro e he
    simp [Registry.empty, GoMap.empty] at he

/-- Registration keeps a registry state a registry state. -/
theorem registerCollector_WF {Collector : Type} (r : Registry Collector) (hwf : r.WF)
    (collector : GoString) (isDefaultEnabled : Bool) (factory : Unit → Collector) :
    (registerCollector r collector isDefaultEnabled factory).WF := by
  constructor
  · exact nodup_keys_assignEntry collector r.flags.length _ hwf.1
  · intro e he
    have hlen : (registerCollector r collector isDefaultEnabled factory).flags.length =
        r.flags.length + 1 := by simp [registerCollector]
    have hfac : ∀ name, (registerCollector r collector isDefaultEnabled factory).factories.get?
        name = if collector = name then some factory else r.factories.get? name :=
      fun name => GoMap.get?_set _ _ _ _
    rw [hlen, hfac]
    rcases mem_assignEntry collector r.flags.length _ e he with h | h
    · subst h
      simp
    · obtain ⟨h1, h2⟩ := hwf.2 e h
      refine ⟨by omega, ?_⟩
      split
      · rfl
      · exact h2

/-! ## The claims on the registry -/

/-- C6.  For every registry state, `NewGPFSCollector` returns an aggregate whose
`Collectors` map has a key for a name exactly when the name is registered with
its enabled flag true, and the value under each key is what the factory
registered for that name returns. -/
theorem NewGPFSCollector_enabled {Collector : Type} (r : Registry Collector) (hwf : r.WF) :
    ∃ g, NewGPFSCollector r = .ok g ∧
      (∀ name, (g.Collectors.get? name).isSome = r.enabled name) ∧
      ∀ name, g.Collectors.get? name =
        if r.enabled name then (r.factories.get? name).map (fun factory => factory ())
        else none := by
  obtain ⟨res, hres, hget⟩ :=
    NewGPFSCollector_loop_spec r r.collectorState.entries GoMap.empty hwf.1 hwf.2
  have hval : ∀ name, res.get? name =
      if r.enabled name then (r.factories.get? name).map (fun factory => factory ())
      else none := by
    intro name
    rw [hget name]
    unfold Registry.enabled GoMap.get?
    cases hl : lookupEntry name r.collectorState.entries with
    | none => simp [GoMap.empty, lookupEntry]
    | some p =>
      cases hfl : r.flags[p]? with
      | none => simp [GoMap.empty, lookupEntry, hfl]
      | some flag => cases hv : flag.value <;> simp [GoMap.empty, lookupEntry, hv, hfl]
  refine ⟨⟨res⟩, ?_, ?_, hval⟩
  · rw [NewGPFSCollector, hres]
  · intro name
    show (res.get? name).isSome = r.enabled name
    rw [hval name]
    cases he : r.enabled name with
    | false => simp
    | true =>
      have he' := he
      unfold Registry.enabled at he'
      cases hl : r.collectorState.get? name with
      | none => rw [hl] at he'; simp at he'
      | some p =>
        have hm := lookupEntry_mem name p _ hl
        simpa using (hwf.2 (name, p) hm).2

/-- C6, at a registry of two names, `mmpmon` with a true flag and `mount` with
a false flag: the aggregate holds what the factory of `mmpmon` returns, and
nothing for `mount`. -/
theorem NewGPFSCollector_enabled_witness :
    (NewGPFSCollector
      ({ flags := [⟨str "collector.mmpmon", [], [str "true"], true⟩,
            ⟨str "collector.mount", [], [str "false"], false⟩],
         collectorState := ⟨[(str "mmpmon", 0), (str "mount", 1)]⟩,
         factories := ⟨[(str "mmpmon", fun _ => 1), (str "mount", fun _ => 2)]⟩ } :
        Registry Nat)).map
      (fun g => (g.Collectors.get? (str "mmpmon"), g.Collectors.get? (str "mount"))) =
      .ok (some 1, none) := by
  obtain ⟨g, hg, _, hval⟩ := NewGPFSCollector_enabled
    ({ flags := [⟨str "collector.mmpmon", [], [str "true"], true⟩,
          ⟨str "collector.mount", [], [str "false"], false⟩],
       collectorState := ⟨[(str "mmpmon", 0), (str "mount", 1)]⟩,
       factories := ⟨[(str "mmpmon", fun _ => 1), (str "mount", fun _ => 2)]⟩ } :
      Registry Nat) (by unfold Registry.WF; decide)
  rw [hg, Except.map, hval, hval]
  decide

/-- C7, counterexample.  After `mmpmon` is registered with a factory that
returns 1, a second registration of `mmpmon` with a factory that returns 2 is
accepted, and the entry of `mmpmon` then holds the flag declared by the second
call and the second factory. -/
theorem registerCollector_twice :
    ((registerCollector (Registry.empty : Registry Nat) (str "mmpmon") true
        (fun _ => 1)).collectorState.get? (str "mmpmon") = some 0 ∧
      ((registerCollector (Registry.empty : Registry Nat) (str "mmpmon") true
        (fun _ => 1)).factories.get? (str "mmpmon")).map (fun factory => factory ()) =
        some 1) ∧
    ((registerCollector (registerCollector (Registry.empty : Registry Nat) (str "mmpmon") true
        (fun _ => 1)) (str "mmpmon") false (fun _ => 2)).collectorState.get? (str "mmpmon") =
        some 1 ∧
      ((registerCollector (registerCollector (Registry.empty : Registry Nat) (str "mmpmon") true
        (fun _ => 1)) (str "mmpmon") false (fun _ => 2)).factories.get? (str "mmpmon")).map
        (fun factory => factory ()) = some 2) := by
  decide

/-- C7, amended.  For every registry state, holding an entry for the name or
not, `registerCollector` is accepted and writes the entry of that name: its
enabled flag is the flag the call declares, its factory is the factory of the
call, and the entries of the other names are as before. -/
theorem registerCollector_overwrites {Collector : Type} (r : Registry Collector)
    (collector : GoString) (isDefaultEnabled : Bool) (factory : Unit → Collector) :
    (∀ name, (registerCollector r collector isDefaultEnabled factory).collectorState.get? name =
      if collector = name then some r.flags.length else r.collectorState.get? name) ∧
    (∀ name, (registerCollector r collector isDefaultEnabled factory).factories.get? name =
      if collector = name then some factory else r.factories.get? name) ∧
    (registerCollector r collector isDefaultEnabled factory).flags.length =
      r.flags.length + 1 := by
  refine ⟨fun name => ?_, fun name => ?_, ?_⟩
  · exact GoMap.get?_set _ _ _ _
  · exact GoMap.get?_set _ _ _ _
  · simp [registerCollector]

/-- C8.  For every collector name `n` and default `d`, `registerCollector`
declares one more switch, named `collector.` followed by `n`, with the help
text `Enable the n collector (default: enabled).` when `d` is true and
`Enable the n collector (default: disabled).` when `d` is false, with the
default value `true` or `false` equal to `d`, and stores the pointer to it as
the enabled flag of `n`; two calls declare switches of the same name exactly
when their collector names are equal. -/
theorem registerCollector_flag {Collector : Type} (r r' : Registry Collector)
    (n n' : GoString) (d d' : Bool) (factory factory' : Unit → Collector) :
    (registerCollector r n d factory).flags = r.flags ++
      [{ name := str "collector." ++ n,
         help := if d then str "Enable the " ++ n ++ str " collector (default: enabled)."
           else str "Enable the " ++ n ++ str " collector (default: disabled).",
         defaultValues := [if d then str "true" else str "false"],
         value := false }] ∧
    (registerCollector r n d factory).collectorState.get? n = some r.flags.length ∧
    (((registerCollector r n d factory).flags.getLast?).map FlagClause.name =
      ((registerCollector r' n' d' factory').flags.getLast?).map FlagClause.name ↔ n = n') := by
  refine ⟨?_, ?_, ?_⟩
  · have h1 : str " collector (default: " ++ str "enabled" ++ str ")." =
        str " collector (default: enabled)." := by decide
    have h2 : str " collector (default: " ++ str "disabled" ++ str ")." =
        str " collector (default: disabled)." := by decide
    cases d
    · simp [registerCollector, List.append_assoc, ← h2]
    · simp [registerCollector, List.append_assoc, ← h1]
  · simp [registerCollector, GoMap.get?_set]
  · simp [registerCollector]

/-! ## Lemmas on the status parser -/

theorem Split_append (sep : Nat) (a b : GoString) :
    Split sep (a ++ sep :: b) = Split sep a ++ Split sep b := by
  induction a with
  | nil => simp [Split]
  | cons c cs ih =>
    by_cases hc : c = sep
    · simp [Split, hc, ih]
    · rw [List.cons_append, Split, Split]
      simp only [hc, if_false, ih]
      cases hs : Split sep cs with
      | nil => exact absurd hs (Split_ne_nil sep cs)
      | cons piece pieces => rfl

theorem parse_mmlsfs_loop_length (lines : List GoString) (acc records : List GPFSFilesystem)
    (h : parse_mmlsfs_loop lines acc = .ok records) :
    records.length ≤ acc.length + lines.length := by
  induction lines generalizing acc with
  | nil =>
    simp [parse_mmlsfs_loop] at h
    simp [h]
  | cons line lines ih =>
    rcases parse_mmlsfs_loop_cases line with hs | ⟨p, hs⟩ | ⟨r, hs⟩
    · rw [hs] at h
      have := ih acc h
      simp
      omega
    · rw [hs] at h
      exact absurd h (by simp)
    · rw [hs] at h
      have := ih _ h
      simp at this ⊢
      omega

theorem parse_mmlsfs_loop_of_ok (out : GoString) (r : List GPFSFilesystem × Option GoError)
    (h : parse_mmlsfs out = .ok r) :
    parse_mmlsfs_loop (Split newline out) [] = .ok r.1 ∧ r.2 = none := by
  unfold parse_mmlsfs at h
  split at h
  · exact absurd h (by simp)
  · rename_i fs hfs
    injection h with h
    rw [← h]
    exact ⟨hfs, rfl⟩

theorem QueryUnescape_of_no_percent (s : GoString) (h : percent ∉ s) :
    QueryUnescape s = .ok (s.map (fun c => if c = plus then space else c)) := by
  induction s with
  | nil => rfl
  | cons c cs ih =>
    have hc : ¬ c = percent := fun e => h (by simp [e])
    have hcs : percent ∉ cs := fun e => h (by simp [e])
    rw [QueryUnescape_cons]
    simp only [hc, if_false, ih hcs, List.map_cons]

theorem map_plus_eq_self_iff (s : GoString) :
    s.map (fun c => if c = plus then space else c) = s ↔ plus ∉ s := by
  induction s with
  | nil => simp
  | cons c cs ih =>
    by_cases hc : c = plus
    · subst hc
      simp [plus, space]
    · have hc' : ¬ plus = c := fun e => hc e.symm
      simp [hc, hc', ih]

/-! ## Further claims on `parse_mmlsfs` -/

/-- C11, the failing input.  The row `mmlsfs::0:1:::fs1:defaultMountPoint`, cut
after its eighth field, passes the check of the number of fields and has the
fields at index 2 and 6 but none at index 8: `parse_mmlsfs` does not skip it,
the index expression `items[8]` panics. -/
theorem parse_mmlsfs_truncated_row_panics :
    ¬ (Split colon (str "mmlsfs::0:1:::fs1:defaultMountPoint")).length < 7 ∧
    (Split colon (str "mmlsfs::0:1:::fs1:defaultMountPoint"))[2]? = some (str "0") ∧
    (Split colon (str "mmlsfs::0:1:::fs1:defaultMountPoint"))[6]? = some (str "fs1") ∧
    (Split colon (str "mmlsfs::0:1:::fs1:defaultMountPoint"))[8]? = none ∧
    parse_mmlsfs (str "mmlsfs::0:1:::fs1:defaultMountPoint") =
      .error (.indexOutOfRange 8 8) := by
  decide

/-- C12, counterexample.  The field at index 8 of the row
`mmlsfs::0:1:::fs1:defaultMountPoint:/mnt/a+b` contains no `%`, and the
`Mountpoint` of its record is `/mnt/a b`, not `/mnt/a+b`. -/
theorem parse_mmlsfs_plus_decoded :
    (Split colon (str "mmlsfs::0:1:::fs1:defaultMountPoint:/mnt/a+b"))[8]? =
      some (str "/mnt/a+b") ∧
    percent ∉ str "/mnt/a+b" ∧
    parse_mmlsfs (str "mmlsfs::0:1:::fs1:defaultMountPoint:/mnt/a+b") =
      .ok ([{ Name := str "fs1", Mountpoint := str "/mnt/a b" }], none) ∧
    str "/mnt/a b" ≠ str "/mnt/a+b" := by
  decide

/-- C12, amended.  For every row that has a field at index 8, whose field at
index 2 is not `HEADER` and whose field at index 8 contains no `%`, the
`Mountpoint` of the record of the row is that field with every `+` replaced by
a blank, so it is the field itself when the field contains no `+` either. -/
theorem parse_mmlsfs_mountpoint_no_percent (out : GoString) (pre post : List GoString)
    (row item2 name item8 : GoString) (before after : List GPFSFilesystem)
    (hrow : Split newline out = pre ++ row :: post)
    (h2 : (Split colon row)[2]? = some item2) (hh : item2 ≠ str "HEADER")
    (h6 : (Split colon row)[6]? = some name)
    (h8 : (Split colon row)[8]? = some item8)
    (hp : percent ∉ item8)
    (hpre : parse_mmlsfs (Join newline pre) = .ok (before, none))
    (hpost : parse_mmlsfs (Join newline post) = .ok (after, none)) :
    parse_mmlsfs out =
      .ok (before ++
        [{ Name := name,
           Mountpoint := item8.map (fun c => if c = plus then space else c) }] ++ after,
        none) ∧
    (item8.map (fun c => if c = plus then space else c) = item8 ↔ plus ∉ item8) := by
  exact ⟨parse_mmlsfs_row_context out pre post row _ hrow
    (fun lines acc =>
      parse_mmlsfs_loop_record row lines acc item2 name item8 _ h2 hh h6 h8
        (QueryUnescape_of_no_percent item8 hp))
    before after hpre hpost, map_plus_eq_self_iff item8⟩

/-- C12, amended, at the text of the rows `mmlsfs::0:1:::a:defaultMountPoint:/a`,
`mmlsfs::0:1:::fs1:defaultMountPoint:/mnt/fs+1` and
`mmlsfs::0:1:::b:defaultMountPoint:/b`, for its second row. -/
theorem parse_mmlsfs_mountpoint_no_percent_witness :
    parse_mmlsfs (str
      "mmlsfs::0:1:::a:defaultMountPoint:/a\nmmlsfs::0:1:::fs1:defaultMountPoint:/mnt/fs+1\nmmlsfs::0:1:::b:defaultMountPoint:/b") =
      .ok ([{ Name := str "a", Mountpoint := str "/a" }] ++
        [{ Name := str "fs1",
           Mountpoint := (str "/mnt/fs+1").map (fun c => if c = plus then space else c) }] ++
        [{ Name := str "b", Mountpoint := str "/b" }], none) :=
  (parse_mmlsfs_mountpoint_no_percent
    (str "mmlsfs::0:1:::a:defaultMountPoint:/a\nmmlsfs::0:1:::fs1:defaultMountPoint:/mnt/fs+1\nmmlsfs::0:1:::b:defaultMountPoint:/b")
    [str "mmlsfs::0:1:::a:defaultMountPoint:/a"]
    [str "mmlsfs::0:1:::b:defaultMountPoint:/b"]
    (str "mmlsfs::0:1:::fs1:defaultMountPoint:/mnt/fs+1")
    (str "0") (str "fs1") (str "/mnt/fs+1")
    [{ Name := str "a", Mountpoint := str "/a" }]
    [{ Name := str "b", Mountpoint := str "/b" }]
    (by decide) (by decide) (by decide) (by decide) (by decide) (by decide) (by decide)
    (by decide)).1

/-- C13.  For all texts `a` and `b` on which `parse_mmlsfs` completes, it
completes on `a`, a newline, `b`, and returns the records of `a` followed by the
records of `b` with a nil error; the records of a text are at most as many as
its lines. -/
theorem parse_mmlsfs_concat (a b : GoString) (ra rb : List GPFSFilesystem)
    (ea eb : Option GoError)
    (ha : parse_mmlsfs a = .ok (ra, ea)) (hb : parse_mmlsfs b = .ok (rb, eb)) :
    parse_mmlsfs (a ++ newline :: b) = .ok (ra ++ rb, none) ∧
    ra.length ≤ (Split newline a).length ∧
    (ra ++ rb).length ≤ (Split newline (a ++ newline :: b)).length := by
  obtain ⟨hla, _⟩ := parse_mmlsfs_loop_of_ok a _ ha
  obtain ⟨hlb, _⟩ := parse_mmlsfs_loop_of_ok b _ hb
  have hab : parse_mmlsfs_loop (Split newline (a ++ newline :: b)) [] = .ok (ra ++ rb) := by
    rw [Split_append, parse_mmlsfs_loop_append, hla]
    simp only []
    rw [parse_mmlsfs_loop_acc, hlb]
  refine ⟨?_, ?_, ?_⟩
  · rw [parse_mmlsfs, hab]
  · simpa using parse_mmlsfs_loop_length _ _ _ hla
  · simpa using parse_mmlsfs_loop_length _ _ _ hab

/-- C13, at the texts `mmlsfs::0:1:::a:defaultMountPoint:%2Fa` followed by an
empty line, and `mmlsfs::0:1:::b:defaultMountPoint:%2Fb`. -/
theorem parse_mmlsfs_concat_witness :
    parse_mmlsfs (str "mmlsfs::0:1:::a:defaultMountPoint:%2Fa\n" ++ newline ::
        str "mmlsfs::0:1:::b:defaultMountPoint:%2Fb") =
      .ok ([{ Name := str "a", Mountpoint := str "/a" }] ++
        [{ Name := str "b", Mountpoint := str "/b" }], none) :=
  (parse_mmlsfs_concat (str "mmlsfs::0:1:::a:defaultMountPoint:%2Fa\n")
    (str "mmlsfs::0:1:::b:defaultMountPoint:%2Fb")
    [{ Name := str "a", Mountpoint := str "/a" }]
    [{ Name := str "b", Mountpoint := str "/b" }] none none (by decide) (by decide)).1

/-! ## Further lemmas on the registry -/

theorem GoMap.keys_set {V : Type} (m : GoMap V) (k : GoString) (v : V) :
    (m.set k v).keys = if k ∈ m.keys then m.keys else m.keys ++ [k] :=
  keys_assignEntry k v m.entries

theorem lookupEntry_isSome {V : Type} (k : GoString) (es : List (GoString × V)) :
    (lookupEntry k es).isSome = decide (k ∈ es.map Prod.fst) := by
  induction es with
  | nil => simp [lookupEntry]
  | cons e es ih =>
    obtain ⟨k0, v0⟩ := e
    by_cases h0 : k0 = k
    · simp [lookupEntry, h0]
    · have h1 : ¬ k = k0 := fun e => h0 e.symm
      simp [lookupEntry, h0, h1, ih]

theorem length_writeFlags (values : Nat → Bool) (i : Nat) (flags : List FlagClause) :
    (writeFlags values i flags).length = flags.length := by
  induction flags generalizing i with
  | nil => rfl
  | cons flag flags ih => simp [writeFlags, ih]

theorem setFlags_WF {Collector : Type} (values : Nat → Bool) (r : Registry Collector)
    (hwf : r.WF) : (setFlags values r).WF := by
  constructor
  · exact hwf.1
  · intro e he
    have := hwf.2 e he
    simpa [setFlags, length_writeFlags] using this

theorem registerFrom_WF {Collector : Type}
    (calls : List (GoString × Bool × (Unit → Collector))) (r : Registry Collector)
    (hwf : r.WF) : (registerFrom r calls).WF := by
  induction calls generalizing r with
  | nil => exact hwf
  | cons call calls ih => exact ih _ (registerCollector_WF r hwf _ _ _)

theorem registerFrom_keys {Collector : Type}
    (calls : List (GoString × Bool × (Unit → Collector))) (r : Registry Collector)
    (h : r.collectorState.keys = r.factories.keys) :
    (registerFrom r calls).collectorState.keys = (registerFrom r calls).factories.keys := by
  induction calls generalizing r with
  | nil => exact h
  | cons call calls ih =>
    refine ih _ ?_
    show (r.collectorState.set call.1 r.flags.length).keys =
      (r.factories.set call.1 call.2.2).keys
    rw [GoMap.keys_set, GoMap.keys_set, h]

/-! ## The claims on the helpers and on the registry invariant -/

/-- C14.  With the process runner as a parameter, `mmlsfs` returns the captured
standard output unchanged with a nil error when the run succeeds, and the empty
string with the error of the run when the run fails; it never returns output
together with an error. -/
theorem mmlsfs_result (execOk execFail : GoString → List GoString → GoString × Option GoError)
    (out partialOut : GoString) (err : GoError)
    (hok : execOk (str "sudo")
      [str "/usr/lpp/mmfs/bin/mmlsfs", str "all", str "-Y", str "-T"] = (out, none))
    (hfail : execFail (str "sudo")
      [str "/usr/lpp/mmfs/bin/mmlsfs", str "all", str "-Y", str "-T"] =
        (partialOut, some err)) :
    mmlsfs execOk = (out, none) ∧
    mmlsfs execFail = ([], some err) ∧
    ((mmlsfs execOk).2 = none ∨ (mmlsfs execOk).1 = []) ∧
    ((mmlsfs execFail).2 = none ∨ (mmlsfs execFail).1 = []) := by
  have h1 : mmlsfs execOk = (out, none) := by simp [mmlsfs, hok]
  have h2 : mmlsfs execFail = ([], some err) := by simp [mmlsfs, hfail]
  refine ⟨h1, h2, Or.inl ?_, Or.inr ?_⟩
  · rw [h1]
  · rw [h2]

/-- C14, at a runner that succeeds with the output `mmlsfs::HEADER:` and a
runner that fails with `exit status 1` after the process wrote `mmlsfs::`. -/
theorem mmlsfs_result_witness :
    mmlsfs (fun _ _ => (str "mmlsfs::HEADER:", none)) = (str "mmlsfs::HEADER:", none) ∧
    mmlsfs (fun _ _ => (str "mmlsfs::", some (.ExecutionError (str "exit status 1")))) =
      ([], some (.ExecutionError (str "exit status 1"))) :=
  ⟨(mmlsfs_result (fun _ _ => (str "mmlsfs::HEADER:", none))
      (fun _ _ => (str "mmlsfs::", some (.ExecutionError (str "exit status 1"))))
      (str "mmlsfs::HEADER:") (str "mmlsfs::") (.ExecutionError (str "exit status 1"))
      rfl rfl).1,
    (mmlsfs_result (fun _ _ => (str "mmlsfs::HEADER:", none))
      (fun _ _ => (str "mmlsfs::", some (.ExecutionError (str "exit status 1"))))
      (str "mmlsfs::HEADER:") (str "mmlsfs::") (.ExecutionError (str "exit status 1"))
      rfl rfl).2.1⟩

/-- C15.  After any sequence of calls of `registerCollector` from the state
before any registration, `collectorState` and `factories` have the same keys,
so a name is in one exactly when it is in the other; and whatever values the
flag variables then receive, no name is enabled without a factory, and
`NewGPFSCollector` returns: it never calls a missing factory. -/
theorem registerAll_same_names {Collector : Type}
    (calls : List (GoString × Bool × (Unit → Collector))) (values : Nat → Bool) :
    (registerAll calls).collectorState.keys = (registerAll calls).factories.keys ∧
    (∀ name, ((registerAll calls).collectorState.get? name).isSome =
      ((registerAll calls).factories.get? name).isSome) ∧
    (∀ name, ((setFlags values (registerAll calls)).enabled name &&
      !((setFlags values (registerAll calls)).factories.get? name).isSome) = false) ∧
    ∃ g, NewGPFSCollector (setFlags values (registerAll calls)) = .ok g := by
  have hkeys : (registerAll calls).collectorState.keys = (registerAll calls).factories.keys :=
    registerFrom_keys calls Registry.empty rfl
  have hsame : ∀ name, ((registerAll calls).collectorState.get? name).isSome =
      ((registerAll calls).factories.get? name).isSome := by
    intro name
    unfold GoMap.get?
    rw [lookupEntry_isSome, lookupEntry_isSome]
    unfold GoMap.keys at hkeys
    rw [hkeys]
  refine ⟨hkeys, hsame, fun name => ?_, ?_⟩
  · have h := hsame name
    show ((setFlags values (registerAll calls)).enabled name &&
      !((registerAll calls).factories.get? name).isSome) = false
    rw [← h]
    unfold Registry.enabled
    show ((match (registerAll calls).collectorState.get? name with
      | none => false
      | some p =>
        match (setFlags values (registerAll calls)).flags[p]? with
        | some flag => flag.value
        | none => false) &&
      !((registerAll calls).collectorState.get? name).isSome) = false
    cases (registerAll calls).collectorState.get? name <;> simp
  · have hwf : (setFlags values (registerAll calls)).WF :=
      setFlags_WF values _ (registerFrom_WF calls Registry.empty Registry.WF_empty)
    obtain ⟨res, hres, _⟩ := NewGPFSCollector_loop_spec (setFlags values (registerAll calls))
      (setFlags values (registerAll calls)).collectorState.entries GoMap.empty hwf.1 hwf.2
    exact ⟨⟨res⟩, by rw [NewGPFSCollector, hres]⟩

/-- C16.  `SliceContains(slice, s)` is true exactly when `s` is an element of
`slice`, and it is false for the empty slice. -/
theorem SliceContains_iff (slice : List GoString) (s : GoString) :
    (SliceContains slice s = true ↔ s ∈ slice) ∧ SliceContains [] s = false := by
  refine ⟨?_, rfl⟩
  induction slice with
  | nil => simp [SliceContains]
  | cons x slice ih =>
    by_cases h : s = x
    · simp [SliceContains, h]
    · simp [SliceContains, h, ih]

/-- C17, the failing input.  When `os.Stat` fails with an error other than
`does not exist`, it gives no file information, and `fileExists` calls
`IsDir` on the missing information: it panics and returns no boolean.  On the
other outcomes it returns true exactly when the path is not a directory. -/
theorem fileExists_other_error_panics :
    fileExists .otherError = .error .nilDereference ∧
    fileExists .notExist = .ok false ∧
    fileExists (.info true) = .ok false ∧
    fileExists (.info false) = .ok true := by
  decide

end collectors
